import Mathlib

/-!
Shallow embedding of the graphql_sync pagination client
(`src/throttle.cpp`, `src/util.cpp`, `src/mapping.cpp`, `src/pagination.cpp`).

JSON values are modelled by an inductive `Json` mirroring nlohmann::json;
C++ `double` fields are modelled by `ℚ` with exact arithmetic, machine
integers by `ℤ`/`ℕ` (no overflow occurs at any reachable argument).
Functions that can throw are modelled in `Except`; the throttle's internal
`try`/`catch` is modelled by an `Except ThrottleState ThrottleState` whose
error value is the state at the throw point, since the catch handler only
logs and keeps all mutations already applied.
-/

namespace GraphqlSync

/-- JSON values, mirroring nlohmann::json.  All C++ number kinds
(integer, unsigned, float) collapse into one exact `num` constructor. -/
inductive Json where
  | null
  | bool (b : Bool)
  | num (q : ℚ)
  | str (s : String)
  | arr (xs : List Json)
  | obj (fields : List (String × Json))

/-- `is_null()` -/
def Json.isNull : Json → Bool
  | .null => true
  | _ => false

/-- `is_array()` -/
def Json.isArr : Json → Bool
  | .arr _ => true
  | _ => false

/-- `is_object()` -/
def Json.isObj : Json → Bool
  | .obj _ => true
  | _ => false

/-- whether the value is a JSON number -/
def Json.isNum : Json → Bool
  | .num _ => true
  | _ => false

/-- Key lookup on an object; `none` on any non-object (as nlohmann `find`). -/
def Json.find : Json → String → Option Json
  | .obj fields, key => fields.lookup key
  | _, _ => none

/-- `contains(key)`: true iff the value is an object holding the key. -/
def Json.containsKey (j : Json) (key : String) : Bool :=
  (j.find key).isSome

/-- `operator[](key)` on a const json; callers guard with `containsKey`,
so the `null` default is never observable. -/
def Json.get (j : Json) (key : String) : Json :=
  (j.find key).getD Json.null

/-- Elements of an array value; callers guard with `isArr`. -/
def Json.arrElems : Json → List Json
  | .arr xs => xs
  | _ => []

/-- `get<double>()`: ok on numbers, type_error 302 otherwise. -/
def Json.getDouble : Json → Except String ℚ
  | .num q => .ok q
  | _ => .error "type_error 302: type must be number"

/-- `get<std::string>()`: ok on strings, type_error 302 otherwise. -/
def Json.getString : Json → Except String String
  | .str s => .ok s
  | _ => .error "type_error 302: type must be string"

/-- `get<bool>()`: ok on booleans, type_error 302 otherwise. -/
def Json.getBool : Json → Except String Bool
  | .bool b => .ok b
  | _ => .error "type_error 302: type must be boolean"

/-- `value(key, default)` for string defaults: type_error 306 on a
non-object; the stored value (which must be a string) if the key is
present; the default otherwise. -/
def Json.valueStr (j : Json) (key dflt : String) : Except String String :=
  if j.isObj then
    match j.find key with
    | some v => v.getString
    | none => .ok dflt
  else .error "type_error 306: cannot use value with this type"

/-- `value(key, default)` for bool defaults. -/
def Json.valueBool (j : Json) (key : String) (dflt : Bool) : Except String Bool :=
  if j.isObj then
    match j.find key with
    | some v => v.getBool
    | none => .ok dflt
  else .error "type_error 306: cannot use value with this type"

/-!  ## ThrottleController (`src/throttle.cpp`, `src/throttle.hpp`)  -/

/-- The private state of `ThrottleController`, with the member defaults of
`throttle.hpp`. -/
structure ThrottleState where
  safetyMargin : ℚ
  lastRequestedCost : ℚ := 0
  maximumAvailable : ℚ := 1000
  currentlyAvailable : ℚ := 1000
  restoreRate : ℚ := 50
  totalSleep : ℚ := 0
  totalCost : ℚ := 0
  observationCount : ℕ := 0
  hasObserved : Bool := false

/-- The body of the `try` block of `observeResponse` once
`extensions.cost` is known to be present, acting on the cost value.
An `.error st` result is a thrown `nlohmann::json::exception`, carrying
the state as mutated so far (the catch handler only logs). -/
def observeCostField (st : ThrottleState) (cost : Json) :
    Except ThrottleState ThrottleState :=
  let step1 : Except ThrottleState ThrottleState :=
    if cost.containsKey "requestedQueryCost" then
      match (cost.get "requestedQueryCost").getDouble with
      | .ok v => .ok { st with lastRequestedCost := v }
      | .error _ => .error st
    else .ok st
  match step1 with
  | .error s => .error s
  | .ok st =>
    let step2 : Except ThrottleState ThrottleState :=
      if cost.containsKey "throttleStatus" then
        let ts := cost.get "throttleStatus"
        let stepA : Except ThrottleState ThrottleState :=
          if ts.containsKey "maximumAvailable" then
            match (ts.get "maximumAvailable").getDouble with
            | .ok v => .ok { st with maximumAvailable := v }
            | .error _ => .error st
          else .ok st
        match stepA with
        | .error s => .error s
        | .ok st =>
          let stepB : Except ThrottleState ThrottleState :=
            if ts.containsKey "currentlyAvailable" then
              match (ts.get "currentlyAvailable").getDouble with
              | .ok v => .ok { st with currentlyAvailable := v }
              | .error _ => .error st
            else .ok st
          match stepB with
          | .error s => .error s
          | .ok st =>
            if ts.containsKey "restoreRate" then
              match (ts.get "restoreRate").getDouble with
              | .ok v => .ok { st with restoreRate := v }
              | .error _ => .error st
            else .ok st
      else .ok st
    match step2 with
    | .error s => .error s
    | .ok st =>
      .ok { st with
            totalCost := st.totalCost + st.lastRequestedCost,
            observationCount := st.observationCount + 1,
            hasObserved := true }

/-- `ThrottleController::observeResponse`.  A thrown json exception is
caught (warning logged), keeping the mutations applied before the throw. -/
def observeResponse (st : ThrottleState) (response : Json) : ThrottleState :=
  if response.containsKey "extensions" &&
      (response.get "extensions").containsKey "cost" then
    match observeCostField st ((response.get "extensions").get "cost") with
    | .ok st2 => st2
    | .error st2 => st2
  else st

/-- `ThrottleController::maybeSleepBeforeNextRequest`.  Returns the new
state together with the number of seconds slept. -/
def maybeSleepBeforeNextRequest (st : ThrottleState) : ThrottleState × ℚ :=
  if st.hasObserved = false ∨ st.restoreRate ≤ 0 then (st, 0)
  else
    let needed := st.lastRequestedCost + st.safetyMargin
    if st.currentlyAvailable ≥ needed then (st, 0)
    else
      let deficit := needed - st.currentlyAvailable
      let sleepSeconds : ℚ := max 0 (⌈deficit / st.restoreRate⌉ : ℚ)
      if sleepSeconds > 0 then
        ({ st with totalSleep := st.totalSleep + sleepSeconds }, sleepSeconds)
      else (st, 0)

/-- `ThrottleController::avgQueryCost`. -/
def avgQueryCost (st : ThrottleState) : ℚ :=
  if st.observationCount = 0 then 0 else st.totalCost / st.observationCount

/-!  ## Backoff (`src/util.cpp`)  -/

/-- `computeBackoffMs`.  `jitterDraw` is the value drawn from
`uniform_int_distribution<int64_t>(0, 100)`; its support is the closed
interval `[0, 100]`.  Exact integer arithmetic models the `int64_t`
computation, which does not overflow at any call site (attempt < 6). -/
def computeBackoffMs (attempt : ℕ) (baseMs maxMs jitterDraw : ℤ) : ℤ :=
  min (baseMs * 2 ^ attempt) maxMs + jitterDraw

/-!  ## Mapper (`src/mapping.cpp`, `src/models.hpp`)  -/

/-- Mirrors `Product` (models.hpp). -/
structure Product where
  id : String
  title : String
  updatedAt : String
deriving DecidableEq

/-- Mirrors `PageResult` (mapping.hpp). -/
structure PageResult where
  products : List Product := []
  lastCursor : Option String := none
  hasNextPage : Bool := false
deriving DecidableEq

/-- `parseProductNode`.  `value` can throw on a non-object node or a
wrongly typed field, hence the `Except`. -/
def parseProductNode (node : Json) : Except String Product :=
  match node.valueStr "id" "" with
  | .error m => .error m
  | .ok id =>
    match node.valueStr "title" "" with
    | .error m => .error m
    | .ok title =>
      match node.valueStr "updatedAt" "" with
      | .error m => .error m
      | .ok updatedAt => .ok { id := id, title := title, updatedAt := updatedAt }

/-- The edge loop of `parseProductsPage`: pushes a product for each edge
holding a `node`, and overwrites the last cursor for each edge holding a
`cursor`. -/
def parseEdges : List Json → List Product → Option String →
    Except String (List Product × Option String)
  | [], ps, c => .ok (ps, c)
  | e :: es, ps, c =>
    let psStep : Except String (List Product) :=
      if e.containsKey "node" then
        match parseProductNode (e.get "node") with
        | .error m => .error m
        | .ok p => .ok (ps ++ [p])
      else .ok ps
    match psStep with
    | .error m => .error m
    | .ok ps =>
      let cStep : Except String (Option String) :=
        if e.containsKey "cursor" then
          match (e.get "cursor").getString with
          | .error m => .error m
          | .ok s => .ok (some s)
        else .ok c
      match cStep with
      | .error m => .error m
      | .ok c => parseEdges es ps c

/-- `parseProductsPage`. -/
def parseProductsPage (responseBody : Json) : Except String PageResult :=
  if responseBody.containsKey "data" = false then
    .error "Response missing data field"
  else
    let data := responseBody.get "data"
    if data.isNull then .ok {}
    else if data.containsKey "products" = false then
      .error "Response missing data.products field"
    else
      let products := data.get "products"
      let edgesRes : Except String (List Product × Option String) :=
        if products.containsKey "edges" && (products.get "edges").isArr then
          parseEdges (products.get "edges").arrElems [] none
        else .ok ([], none)
      match edgesRes with
      | .error m => .error m
      | .ok (ps, c) =>
        let hnRes : Except String Bool :=
          if products.containsKey "pageInfo" then
            (products.get "pageInfo").valueBool "hasNextPage" false
          else .ok false
        match hnRes with
        | .error m => .error m
        | .ok hn => .ok { products := ps, lastCursor := c, hasNextPage := hn }

/-- The loop of `extractGraphqlErrors` over the errors array.  A
non-object element makes `value` throw (uncaught in the driver). -/
def extractErrorMessages : List Json → Except String (List String)
  | [] => .ok []
  | e :: es =>
    match e.valueStr "message" "Unknown GraphQL error" with
    | .error m => .error m
    | .ok msg =>
      match extractErrorMessages es with
      | .error m => .error m
      | .ok rest => .ok (msg :: rest)

/-- `extractGraphqlErrors`. -/
def extractGraphqlErrors (responseBody : Json) : Except String (List String) :=
  if responseBody.containsKey "errors" && (responseBody.get "errors").isArr then
    extractErrorMessages (responseBody.get "errors").arrElems
  else .ok []

/-!  ## Retry policy (`src/pagination.cpp`, executeWithRetry)  -/

/-- Result of one call of `GraphQLClient::execute`: a numbered HTTP
response with parsed body, or a thrown `runtime_error` (network, timeout
or response-decoding failure) with its message. -/
inductive ExecResult where
  | resp (httpStatus : ℕ) (body : Json)
  | netErr (msg : String)

/-- `Paginator::isRetryableStatus`. -/
def isRetryableStatus (status : ℕ) : Bool :=
  status == 429 || status ≥ 500

/-- `Paginator::kMaxAttempts`. -/
def kMaxAttempts : ℕ := 6

/-- `msg.find(pat) != std::string::npos`. -/
def containsSubstr (s pat : String) : Bool :=
  (List.range (s.length + 1)).any fun i => (s.drop i).startsWith pat

/-- Observable outcome of `executeWithRetry`: the returned body or thrown
message, the number of `mStats.totalRetries` increments performed, the
backoff sleeps performed (ms), and the client call index after the call. -/
structure RetryOutcome where
  result : Except String Json
  retries : ℕ
  sleepsMs : List ℤ
  nextCall : ℕ

/-- The attempt loop of `executeWithRetry`.  `exec` is the client,
indexed by a global call counter; `jit` is the jitter drawn for a given
attempt index.  `fuel` is `kMaxAttempts - attempt`, so `fuel = 0` is the
unreachable fall-through throw after the loop.  The sentinel throw at the
last attempt is re-thrown unchanged by the catch handler (its message
contains the sentinel substring), which the translation short-circuits
into a direct error return. -/
def executeWithRetryGo (exec : ℕ → ExecResult) (jit : ℕ → ℤ) :
    ℕ → ℕ → ℕ → ℕ → List ℤ → RetryOutcome
  | 0, callIdx, _, retries, sleeps =>
    ⟨.error "Max retries exceeded (unreachable)", retries, sleeps, callIdx⟩
  | fuel + 1, callIdx, attempt, retries, sleeps =>
    match exec callIdx with
    | .resp status body =>
      if isRetryableStatus status then
        let retries := retries + 1
        let backoff := computeBackoffMs attempt 200 5000 (jit attempt)
        if attempt = kMaxAttempts - 1 then
          ⟨.error ("Max retries exceeded.  Last HTTP status: " ++
              toString status), retries, sleeps, callIdx + 1⟩
        else
          executeWithRetryGo exec jit fuel (callIdx + 1) (attempt + 1)
            retries (sleeps ++ [backoff])
      else ⟨.ok body, retries, sleeps, callIdx + 1⟩
    | .netErr msg =>
      if containsSubstr msg "Max retries exceeded" then
        ⟨.error msg, retries, sleeps, callIdx + 1⟩
      else
        let retries := retries + 1
        if attempt = kMaxAttempts - 1 then
          ⟨.error ("Max retries exceeded.  Last error: " ++ msg),
            retries, sleeps, callIdx + 1⟩
        else
          executeWithRetryGo exec jit fuel (callIdx + 1) (attempt + 1)
            retries (sleeps ++ [computeBackoffMs attempt 200 5000 (jit attempt)])

/-- `Paginator::executeWithRetry`, starting at a given client call
index. -/
def executeWithRetry (exec : ℕ → ExecResult) (jit : ℕ → ℤ)
    (callIdx : ℕ) : RetryOutcome :=
  executeWithRetryGo exec jit kMaxAttempts callIdx 0 0 []

/-!  ## Pagination driver (`src/pagination.cpp`, fetchAllProducts)  -/

/-- Mirrors `Paginator::Stats`. -/
structure Stats where
  totalFetched : ℤ := 0
  totalRequests : ℕ := 0
  totalRetries : ℕ := 0
  totalSleepSeconds : ℚ := 0
  avgQueryCost : ℚ := 0

/-- The `variables` json built by the driver for one page request
(`first`, plus `after` when a cursor exists). -/
def mkVariables (fetchCount : ℤ) (cursor : Option String) : Json :=
  match cursor with
  | none => Json.obj [("first", Json.num fetchCount)]
  | some c => Json.obj [("first", Json.num fetchCount),
                        ("after", Json.str c)]

/-- Event-log entry recording one loop iteration (the request issued and
the page parsed, if any); used only to state trace properties, it does
not influence the computation. -/
structure IterLog where
  accBefore : ℕ
  fetchCount : ℤ
  cursorUsed : Option String
  page : Option PageResult

/-- How one loop iteration ends: loop again with a new cursor, `break`,
or an uncaught exception escaping `fetchAllProducts`. -/
inductive StepExit where
  | next (cursor : Option String)
  | stop
  | crash (msg : String)

/-- Result of one iteration of the pagination loop. -/
structure StepResult where
  acc : List Product
  stats : Stats
  thr : ThrottleState
  callIdx : ℕ
  exit : StepExit
  entry : IterLog

/-- One iteration of the `fetchAllProducts` loop body
(pagination.cpp lines 32-109), entered with the loop condition true. -/
def fetchStep (client : ℕ → Json → ExecResult) (jit : ℕ → ℤ)
    (totalLimit pageSize : ℤ) (acc : List Product) (cursor : Option String)
    (stats : Stats) (thr : ThrottleState) (callIdx : ℕ) : StepResult :=
  let thr := (maybeSleepBeforeNextRequest thr).1
  let remaining : ℤ := totalLimit - (acc.length : ℤ)
  let fetchCount : ℤ := min pageSize remaining
  let vars := mkVariables fetchCount cursor
  let out := executeWithRetry (fun i => client i vars) jit callIdx
  let stats := { stats with totalRetries := stats.totalRetries + out.retries }
  let entry0 : IterLog := ⟨acc.length, fetchCount, cursor, none⟩
  match out.result with
  | .error _ => ⟨acc, stats, thr, out.nextCall, .stop, entry0⟩
  | .ok response =>
    let stats := { stats with totalRequests := stats.totalRequests + 1 }
    let thr := observeResponse thr response
    match extractGraphqlErrors response with
    | .error m => ⟨acc, stats, thr, out.nextCall, .crash m, entry0⟩
    | .ok errors =>
      if errors ≠ [] ∧ (response.containsKey "data" = false ∨
          (response.get "data").isNull = true) then
        ⟨acc, stats, thr, out.nextCall, .stop, entry0⟩
      else
        match parseProductsPage response with
        | .error _ => ⟨acc, stats, thr, out.nextCall, .stop, entry0⟩
        | .ok page =>
          if page.products.isEmpty then
            ⟨acc, stats, thr, out.nextCall, .stop,
              { entry0 with page := some page }⟩
          else
            let acc2 := acc ++ page.products
            if page.hasNextPage = false then
              ⟨acc2, stats, thr, out.nextCall, .stop,
                { entry0 with page := some page }⟩
            else
              ⟨acc2, stats, thr, out.nextCall, .next page.lastCursor,
                { entry0 with page := some page }⟩

/-- Populating the run statistics after the loop
(pagination.cpp lines 112-117). -/
def finishRun (acc : List Product) (stats : Stats) (thr : ThrottleState)
    (callIdx : ℕ) (log : List IterLog) :
    List Product × Stats × ThrottleState × ℕ × List IterLog :=
  (acc,
   { stats with totalFetched := (acc.length : ℤ),
                totalSleepSeconds := thr.totalSleep,
                avgQueryCost := avgQueryCost thr },
   thr, callIdx, log)

/-- The `while` loop of `fetchAllProducts`.  `fuel` bounds the number of
iterations; every continuing iteration appends at least one product, so
`fuel = totalLimit.toNat` can never run out before the loop condition
turns false, and at `fuel = 0` the loop condition is already false, so
returning the finished run there is exact.  A `.error` value is an
exception escaping `fetchAllProducts` (only `extractGraphqlErrors` can
throw uncaught). -/
def fetchGo (client : ℕ → Json → ExecResult) (jit : ℕ → ℤ)
    (totalLimit pageSize : ℤ) :
    ℕ → List Product → Option String → Stats → ThrottleState → ℕ →
    List IterLog →
    Except String (List Product × Stats × ThrottleState × ℕ × List IterLog)
  | 0, acc, _cursor, stats, thr, callIdx, log =>
    .ok (finishRun acc stats thr callIdx log)
  | fuel + 1, acc, cursor, stats, thr, callIdx, log =>
    if (acc.length : ℤ) < totalLimit then
      let s := fetchStep client jit totalLimit pageSize acc cursor stats
        thr callIdx
      match s.exit with
      | .crash m => .error m
      | .stop =>
        .ok (finishRun s.acc s.stats s.thr s.callIdx (log ++ [s.entry]))
      | .next c =>
        fetchGo client jit totalLimit pageSize fuel s.acc c s.stats s.thr
          s.callIdx (log ++ [s.entry])
    else .ok (finishRun acc stats thr callIdx log)

/-- `Paginator::fetchAllProducts` for a paginator freshly constructed
over the throttle state `thr0`. -/
def fetchAllProducts (client : ℕ → Json → ExecResult) (jit : ℕ → ℤ)
    (thr0 : ThrottleState) (totalLimit pageSize : ℤ) :
    Except String (List Product × Stats × ThrottleState × ℕ ×
      List IterLog) :=
  fetchGo client jit totalLimit pageSize totalLimit.toNat [] none {} thr0 0 []

/-- The products appended to the accumulator by the logged iterations, in
fetch order. -/
def loggedProducts (log : List IterLog) : List Product :=
  (log.map fun e => match e.page with
    | some p => p.products
    | none => []).flatten

/-- A concrete throttle state: cost 200, available 50, restore rate 100,
safety margin 0, after one observation. -/
def stC1 : ThrottleState :=
  { safetyMargin := 0, lastRequestedCost := 200, currentlyAvailable := 50,
    restoreRate := 100, hasObserved := true }

/-!  ## Claim C7: responses without cost-extension data  -/

/-- A response with no `extensions` field or no `cost` subfield. -/
def noCostData (r : Json) : Prop :=
  (r.containsKey "extensions" &&
    (r.get "extensions").containsKey "cost") = false

instance (r : Json) : Decidable (noCostData r) := by
  unfold noCostData
  infer_instance

/-- Two concrete cost-free responses: a body with only `data`, and a body
whose `extensions` lacks a `cost` subfield. -/
def rsC7 : List Json :=
  [Json.obj [("data", Json.obj [("products", Json.obj [])])],
   Json.obj [("extensions", Json.obj [("tracing", Json.num 1)])],
   Json.null]

/-!  ## Claim C8: malformed / non-object cost data  -/

/-- The initial throttle state of the repository: safety margin 20,
everything else at the header defaults. -/
def thrInit : ThrottleState := { safetyMargin := 20 }

/-- A response whose `extensions.cost` is present but is a number, not an
object. -/
def rC8 : Json :=
  Json.obj [("extensions", Json.obj [("cost", Json.num 7)])]

/-- A response whose cost object has a string-typed
`requestedQueryCost`. -/
def rC8b : Json :=
  Json.obj [("extensions", Json.obj [("cost",
    Json.obj [("requestedQueryCost", Json.str "many")])])]

/-!  ## Claim C10: cost object without requestedQueryCost  -/

/-- Whether a key, when present on `ts`, holds a JSON number (so that
`get<double>` cannot throw). -/
def numIfPresentB (ts : Json) (k : String) : Bool :=
  match ts.find k with
  | none => true
  | some v => v.isNum

/-- Whether reading the `throttleStatus` subfields of a cost object can
throw no json exception. -/
def tsWellFormedB (cost : Json) : Bool :=
  match cost.find "throttleStatus" with
  | none => true
  | some ts =>
    numIfPresentB ts "maximumAvailable" &&
    numIfPresentB ts "currentlyAvailable" &&
    numIfPresentB ts "restoreRate"

/-- A response whose cost object has no `requestedQueryCost` but a
malformed `throttleStatus` subfield (string instead of number). -/
def rC10 : Json :=
  Json.obj [("extensions", Json.obj [("cost",
    Json.obj [("throttleStatus",
      Json.obj [("maximumAvailable", Json.str "x")])])])]

/-- A well-formed response whose cost object lacks `requestedQueryCost`
but carries a numeric throttleStatus. -/
def rC10w : Json :=
  Json.obj [("extensions", Json.obj [("cost",
    Json.obj [("throttleStatus",
      Json.obj [("currentlyAvailable", Json.num 80)])])])]

/-- A client that always answers HTTP 404 with an empty object body. -/
def execC5 : ℕ → ExecResult := fun _ => .resp 404 (Json.obj [])

/-!  ## Claim C4: retry exhaustion and partial results  -/

/-- Whether one client call outcome is a retryable condition: an HTTP
429 / ≥ 500 response, or a thrown transport error.  The wrapper
recognises its own terminal error by the sentinel substring, so a
transport error message never contains it. -/
def retryableCond : ExecResult → Prop
  | .resp status _ => isRetryableStatus status = true
  | .netErr msg => containsSubstr msg "Max retries exceeded" = false

/-- The terminal message raised when attempts are exhausted, carrying the
last observed HTTP status or error message. -/
def lastErrMsg : ExecResult → String
  | .resp status _ =>
    "Max retries exceeded.  Last HTTP status: " ++ toString status
  | .netErr m => "Max retries exceeded.  Last error: " ++ m

/-- A client that always answers HTTP 503. -/
def execC4 : ℕ → ExecResult := fun _ => .resp 503 Json.null

/-- A response with zero records but `hasNextPage = true`. -/
def bodyC3 : Json :=
  Json.obj [("data", Json.obj [("products", Json.obj [
    ("edges", Json.arr []),
    ("pageInfo", Json.obj [("hasNextPage", Json.bool true)])])])]

/-- A client that always answers the empty page `bodyC3`. -/
def clientC3 : ℕ → Json → ExecResult := fun _ _ => .resp 200 bodyC3

/-- A previously accumulated record. -/
def prodW : Product := ⟨"gidW", "W", "t"⟩

/-!  ## Claim C9: continuation cursor of a page  -/

/-- The cursor string carried by an edge, when it has one. -/
def edgeCursor (e : Json) : Option String :=
  match e.find "cursor" with
  | some (Json.str s) => some s
  | _ => none

/-- A page whose first edge carries a node and a cursor, and whose second
edge carries only a node: two records are parsed, but the returned
continuation cursor is the one of the FIRST record. -/
def bodyC9 : Json :=
  Json.obj [("data", Json.obj [("products", Json.obj [
    ("edges", Json.arr [
      Json.obj [("cursor", Json.str "c1"),
                ("node", Json.obj [("id", Json.str "a"),
                  ("title", Json.str "A"), ("updatedAt", Json.str "t")])],
      Json.obj [("node", Json.obj [("id", Json.str "b"),
                  ("title", Json.str "B"), ("updatedAt", Json.str "t")])]]),
    ("pageInfo", Json.obj [("hasNextPage", Json.bool true)])])])]

/-- A well-formed first edge (node and cursor). -/
def edgeC9a : Json :=
  Json.obj [("cursor", Json.str "c1"),
            ("node", Json.obj [("id", Json.str "a"),
              ("title", Json.str "A"), ("updatedAt", Json.str "t")])]

/-- A well-formed second edge (node and cursor). -/
def edgeC9b : Json :=
  Json.obj [("cursor", Json.str "c2"),
            ("node", Json.obj [("id", Json.str "b"),
              ("title", Json.str "B"), ("updatedAt", Json.str "t")])]

/-- A well-formed two-edge page body. -/
def bodyC9w : Json :=
  Json.obj [("data", Json.obj [("products", Json.obj [
    ("edges", Json.arr [edgeC9a, edgeC9b]),
    ("pageInfo", Json.obj [("hasNextPage", Json.bool true)])])])]

/-- The parse of `bodyC9w`. -/
def pageC9w : PageResult :=
  ⟨[⟨"a", "A", "t"⟩, ⟨"b", "B", "t"⟩], some "c2", true⟩

/-- A client always answering the well-formed two-edge page. -/
def clientC9w : ℕ → Json → ExecResult := fun _ _ => .resp 200 bodyC9w

/-- The client responses are bounded by the requested page size: whenever
a request built by the driver gets a parsed page back, the page carries
at most the requested number of records. -/
def BoundedResponses (client : ℕ → Json → ExecResult) : Prop :=
  ∀ (i : ℕ) (fc : ℤ) (cur : Option String) (status : ℕ) (body : Json)
    (page : PageResult),
    client i (mkVariables fc cur) = .resp status body →
    parseProductsPage body = .ok page →
    (page.products.length : ℤ) ≤ fc

/-- One well-formed edge of the concrete mock server. -/
def mkEdgeW (n : ℕ) : Json :=
  Json.obj [("cursor", Json.str ("c" ++ toString n)),
            ("node", Json.obj [("id", Json.str ("gid" ++ toString n)),
              ("title", Json.str "P"), ("updatedAt", Json.str "t")])]

/-- One page body of the mock server: `n` records starting at id `lo`,
always claiming more pages exist. -/
def mkPageBodyW (lo n : ℕ) : Json :=
  Json.obj [("data", Json.obj [("products", Json.obj [
    ("edges", Json.arr ((List.range n).map fun k => mkEdgeW (lo + k))),
    ("pageInfo", Json.obj [("hasNextPage", Json.bool true)])])])]

/-- A mock server holding more than 25 products, answering pages keyed on
the `first` and `after` request variables. -/
def clientC2 : ℕ → Json → ExecResult := fun _ vars =>
  match vars.find "first" with
  | some (Json.num q) =>
    if q = 10 then
      match vars.find "after" with
      | none => .resp 200 (mkPageBodyW 1 10)
      | some (Json.str s) =>
        if s = "c10" then .resp 200 (mkPageBodyW 11 10)
        else .resp 200 (Json.obj [])
      | some _ => .resp 200 (Json.obj [])
    else if q = 5 then .resp 200 (mkPageBodyW 21 5)
    else .resp 200 (Json.obj [])
  | _ => .resp 200 (Json.obj [])

/-- Page-length check used to discharge `BoundedResponses` on concrete
bodies by evaluation. -/
def lenOk (b : Json) (fc : ℤ) : Bool :=
  match parseProductsPage b with
  | .ok p => decide ((p.products.length : ℤ) ≤ fc)
  | .error _ => true

/-- The 25 products served by the mock server. -/
def prodsC2 : List Product :=
  (List.range 25).map fun k => ⟨"gid" ++ toString (k + 1), "P", "t"⟩

/-- The parsed page with `n` records starting at id `lo`. -/
def parsedPageW (lo n : ℕ) : PageResult :=
  ⟨(List.range n).map fun k => ⟨"gid" ++ toString (lo + k), "P", "t"⟩,
   some ("c" ++ toString (lo + (n - 1))), true⟩

/-- The event log of the 25-product run with page size 10. -/
def logC2 : List IterLog :=
  [⟨0, 10, none, some (parsedPageW 1 10)⟩,
   ⟨10, 10, some "c10", some (parsedPageW 11 10)⟩,
   ⟨20, 5, some "c20", some (parsedPageW 21 5)⟩]

/-- The run statistics of the 25-product run. -/
def statsC2 : Stats :=
  { totalFetched := 25, totalRequests := 3, totalRetries := 0,
    totalSleepSeconds := 0, avgQueryCost := 0 }

/-!  ## Helper lemmas  -/

theorem Json.find_of_not_obj {j : Json} (h : j.isObj = false) (k : String) :
    j.find k = none := by
  cases j <;> simp_all [Json.isObj, Json.find]

theorem Json.getDouble_of_not_num {v : Json} (h : v.isNum = false) :
    v.getDouble = .error "type_error 302: type must be number" := by
  cases v <;> simp_all [Json.isNum, Json.getDouble]

/-!  ## Claim C1: maybeSleepBeforeNextRequest  -/

/-- C1: with at least one observation and a positive restore rate,
`maybeSleepBeforeNextRequest` sleeps 0 seconds when
`currentlyAvailable ≥ lastRequestedCost + safetyMargin` (state unchanged),
and otherwise sleeps exactly
`⌈(lastRequestedCost + safetyMargin - currentlyAvailable) / restoreRate⌉`
seconds, adding that amount to the cumulative sleep counter; with no
observation ever made or a non-positive restore rate it is a no-op. -/
theorem maybeSleep_correct (st : ThrottleState) :
    (st.hasObserved = true → 0 < st.restoreRate →
      (st.currentlyAvailable ≥ st.lastRequestedCost + st.safetyMargin →
        maybeSleepBeforeNextRequest st = (st, 0)) ∧
      (st.currentlyAvailable < st.lastRequestedCost + st.safetyMargin →
        (maybeSleepBeforeNextRequest st).2 =
          (⌈(st.lastRequestedCost + st.safetyMargin - st.currentlyAvailable)
              / st.restoreRate⌉ : ℚ) ∧
        (maybeSleepBeforeNextRequest st).1 =
          { st with totalSleep :=
              st.totalSleep + (maybeSleepBeforeNextRequest st).2 })) ∧
    (st.hasObserved = false ∨ st.restoreRate ≤ 0 →
      maybeSleepBeforeNextRequest st = (st, 0)) := by
  refine ⟨fun hobs hrate => ⟨fun hge => ?_, fun hlt => ?_⟩, fun hng => ?_⟩
  · simp only [maybeSleepBeforeNextRequest]
    rw [if_neg (by simp [hobs, not_le.mpr hrate]), if_pos hge]
  · have hd : 0 < (st.lastRequestedCost + st.safetyMargin -
        st.currentlyAvailable) / st.restoreRate := by
      apply div_pos (by linarith) hrate
    have hc : (0:ℚ) < (⌈(st.lastRequestedCost + st.safetyMargin -
        st.currentlyAvailable) / st.restoreRate⌉ : ℚ) := by
      exact_mod_cast Int.ceil_pos.mpr hd
    have hmax : max 0 (⌈(st.lastRequestedCost + st.safetyMargin -
        st.currentlyAvailable) / st.restoreRate⌉ : ℚ) =
        (⌈(st.lastRequestedCost + st.safetyMargin -
            st.currentlyAvailable) / st.restoreRate⌉ : ℚ) :=
      max_eq_right hc.le
    simp only [maybeSleepBeforeNextRequest]
    rw [if_neg (by simp [hobs, not_le.mpr hrate]), if_neg (not_le.mpr hlt),
      if_pos (by rw [hmax]; exact hc)]
    rw [hmax]
    exact ⟨rfl, rfl⟩
  · simp only [maybeSleepBeforeNextRequest]
    rw [if_pos hng]

/-- Witness for `maybeSleep_correct`: at cost 200, available 50,
restore rate 100 the controller sleeps exactly 2 seconds. -/
theorem maybeSleep_correct_inst :
    (maybeSleepBeforeNextRequest stC1).2 = 2 ∧
    (maybeSleepBeforeNextRequest stC1).1.totalSleep = 2 := by
  have h := ((maybeSleep_correct stC1).1 rfl (by norm_num [stC1])).2
    (by norm_num [stC1])
  have h2 : (⌈(stC1.lastRequestedCost + stC1.safetyMargin -
      stC1.currentlyAvailable) / stC1.restoreRate⌉ : ℤ) = 2 := by
    rw [Int.ceil_eq_iff]
    constructor <;> norm_num [stC1]
  have hc : (⌈(stC1.lastRequestedCost + stC1.safetyMargin -
      stC1.currentlyAvailable) / stC1.restoreRate⌉ : ℚ) = 2 := by
    exact_mod_cast h2
  have g1 := h.1.trans hc
  refine ⟨g1, ?_⟩
  rw [h.2]
  show stC1.totalSleep + (maybeSleepBeforeNextRequest stC1).2 = 2
  rw [g1]
  norm_num [stC1]

theorem observeResponse_noCostData {st : ThrottleState} {r : Json}
    (h : noCostData r) : observeResponse st r = st := by
  unfold noCostData at h
  unfold observeResponse
  rw [if_neg (by simp [h])]

/-- C7: a response without cost-extension data is a silent no-op for
`observeResponse`: the whole throttle state (observation count, cumulative
cost sum, budget fields, has-observed flag) is unchanged, hence also the
average cost, and this holds for any number of such responses in a row. -/
theorem observe_no_cost_noop (st : ThrottleState) (rs : List Json)
    (h : ∀ r ∈ rs, noCostData r) :
    rs.foldl observeResponse st = st ∧
    (∀ r ∈ rs, observeResponse st r = st) ∧
    avgQueryCost (rs.foldl observeResponse st) = avgQueryCost st := by
  have hfold : rs.foldl observeResponse st = st := by
    induction rs with
    | nil => rfl
    | cons r rs ih =>
      rw [List.foldl_cons, observeResponse_noCostData (h r (by simp))]
      exact ih fun x hx => h x (by simp [hx])
  exact ⟨hfold, fun r hr => observeResponse_noCostData (h r hr),
    by rw [hfold]⟩

/-- Witness for `observe_no_cost_noop` on three concrete cost-free
responses. -/
theorem observe_no_cost_noop_inst :
    rsC7.foldl observeResponse stC1 = stC1 ∧
    (∀ r ∈ rsC7, observeResponse stC1 r = stC1) ∧
    avgQueryCost (rsC7.foldl observeResponse stC1) = avgQueryCost stC1 :=
  observe_no_cost_noop stC1 rsC7 (by decide)

/-- C8 counterexample: on a response whose cost-extension data is a
non-object, `observeResponse` does NOT leave the observation count and the
has-observed flag unchanged — the response is counted as an observation. -/
theorem observe_malformed_counterexample :
    (observeResponse thrInit rC8).observationCount ≠
      thrInit.observationCount ∧
    (observeResponse thrInit rC8).hasObserved = true ∧
    thrInit.hasObserved = false := by
  refine ⟨?_, rfl, rfl⟩
  show (1 : ℕ) ≠ 0
  decide

/-- C8 amended: `observeResponse` never raises an error.  When
`extensions.cost` is present but not an object, the budget fields are left
unchanged but the response is counted as an observation (count
incremented, has-observed set, stale last cost added to the sum).  When
the cost object carries a `requestedQueryCost` of non-number type, the
thrown json exception is caught before any mutation and the entire state
is unchanged. -/
theorem observe_malformed_cost (st : ThrottleState) (r ext cost : Json)
    (hext : r.find "extensions" = some ext)
    (hcost : ext.find "cost" = some cost) :
    (cost.isObj = false →
      observeResponse st r =
        { st with totalCost := st.totalCost + st.lastRequestedCost,
                  observationCount := st.observationCount + 1,
                  hasObserved := true }) ∧
    (∀ v, cost.find "requestedQueryCost" = some v → v.isNum = false →
      observeResponse st r = st) := by
  have hget : (r.get "extensions").find "cost" = some cost := by
    simp [Json.get, hext, hcost]
  constructor
  · intro hobj
    unfold observeResponse
    rw [if_pos (by simp [Json.containsKey, hext, Json.get, hcost])]
    simp only [Json.get, hext, Option.getD_some, hcost]
    unfold observeCostField
    simp [Json.containsKey, Json.find_of_not_obj hobj]
  · intro v hv hnum
    unfold observeResponse
    rw [if_pos (by simp [Json.containsKey, hext, Json.get, hcost])]
    simp only [Json.get, hext, Option.getD_some, hcost]
    unfold observeCostField
    simp [Json.containsKey, hv, Json.get, Json.getDouble_of_not_num hnum]

/-- Witness for `observe_malformed_cost` on the two concrete malformed
responses `rC8` (non-object cost) and `rC8b` (wrongly typed subfield). -/
theorem observe_malformed_cost_inst :
    observeResponse thrInit rC8 =
      { thrInit with
        totalCost := thrInit.totalCost + thrInit.lastRequestedCost,
        observationCount := thrInit.observationCount + 1,
        hasObserved := true } ∧
    observeResponse thrInit rC8b = thrInit :=
  ⟨(observe_malformed_cost thrInit rC8 _ _ rfl rfl).1 rfl,
   (observe_malformed_cost thrInit rC8b _ _ rfl rfl).2
     (Json.str "many") rfl rfl⟩

/-- C10 counterexample: a cost object without `requestedQueryCost` whose
`throttleStatus` holds a wrongly typed subfield does NOT increment the
observation count — the json exception aborts the function before the
increment. -/
theorem observe_missing_cost_counterexample :
    (observeResponse thrInit rC10).observationCount ≠
      thrInit.observationCount + 1 ∧
    (observeResponse thrInit rC10).hasObserved = false := by
  refine ⟨?_, rfl⟩
  show (0 : ℕ) ≠ 1
  decide

/-- C10 amended: for a response whose `extensions.cost` is an object
without a `requestedQueryCost` subfield, provided reading the
`throttleStatus` subfields throws no json exception, `observeResponse`
increments the observation count, sets the has-observed flag, adds the
stale last request cost to the cumulative sum (leaving the last cost
itself unchanged), so the average cost counts the response as an
observation of the stale last cost. -/
theorem observe_missing_requested_cost (st : ThrottleState)
    (r ext cost : Json)
    (hext : r.find "extensions" = some ext)
    (hcost : ext.find "cost" = some cost)
    (hnone : cost.find "requestedQueryCost" = none)
    (hts : tsWellFormedB cost = true) :
    (observeResponse st r).observationCount = st.observationCount + 1 ∧
    (observeResponse st r).hasObserved = true ∧
    (observeResponse st r).totalCost = st.totalCost + st.lastRequestedCost ∧
    (observeResponse st r).lastRequestedCost = st.lastRequestedCost ∧
    avgQueryCost (observeResponse st r) =
      (st.totalCost + st.lastRequestedCost) / (st.observationCount + 1) := by
  have hred : observeResponse st r =
      (match observeCostField st cost with
        | .ok s => s
        | .error s => s) := by
    unfold observeResponse
    rw [if_pos (by simp [Json.containsKey, hext, Json.get, hcost])]
    simp only [Json.get, hext, Option.getD_some, hcost]
  have havg : ∀ s : ThrottleState, s.observationCount = st.observationCount + 1 →
      s.totalCost = st.totalCost + st.lastRequestedCost →
      avgQueryCost s = (st.totalCost + st.lastRequestedCost) /
        (st.observationCount + 1) := by
    intro s h1 h2
    unfold avgQueryCost
    rw [if_neg (by omega), h1, h2]
    push_cast
    ring_nf
  rw [hred]
  unfold tsWellFormedB at hts
  cases hts0 : cost.find "throttleStatus" with
  | none =>
    simp only [observeCostField, Json.containsKey, hnone, hts0,
      Option.isSome_none, Bool.false_eq_true, if_false]
    exact ⟨by trivial, by trivial, by trivial, by trivial, havg _ rfl rfl⟩
  | some ts =>
    rw [hts0] at hts
    simp only [Bool.and_eq_true] at hts
    obtain ⟨⟨h1, h2⟩, h3⟩ := hts
    unfold numIfPresentB at h1 h2 h3
    simp only [observeCostField, Json.containsKey, hnone, hts0, Json.get,
      Option.isSome_none, Option.isSome_some, Option.getD_some,
      Bool.false_eq_true, if_false, if_true]
    cases hA : ts.find "maximumAvailable" with
    | none =>
      rw [hA] at h1
      cases hB : ts.find "currentlyAvailable" with
      | none =>
        cases hC : ts.find "restoreRate" with
        | none =>
          simp only [hA, hB, hC, Option.isSome_none, Bool.false_eq_true,
            if_false]
          exact ⟨by trivial, by trivial, by trivial, by trivial, havg _ rfl rfl⟩
        | some v3 =>
          rw [hC] at h3
          obtain ⟨q3, rfl⟩ : ∃ q, v3 = Json.num q := by
            cases v3 <;> simp_all [Json.isNum]
          simp only [hA, hB, hC, Option.isSome_none, Option.isSome_some,
            Option.getD_some, Json.getDouble, Bool.false_eq_true, if_false,
            if_true]
          exact ⟨by trivial, by trivial, by trivial, by trivial, havg _ rfl rfl⟩
      | some v2 =>
        rw [hB] at h2
        obtain ⟨q2, rfl⟩ : ∃ q, v2 = Json.num q := by
          cases v2 <;> simp_all [Json.isNum]
        cases hC : ts.find "restoreRate" with
        | none =>
          simp only [hA, hB, hC, Option.isSome_none, Option.isSome_some,
            Option.getD_some, Json.getDouble, Bool.false_eq_true, if_false,
            if_true]
          exact ⟨by trivial, by trivial, by trivial, by trivial, havg _ rfl rfl⟩
        | some v3 =>
          rw [hC] at h3
          obtain ⟨q3, rfl⟩ : ∃ q, v3 = Json.num q := by
            cases v3 <;> simp_all [Json.isNum]
          simp only [hA, hB, hC, Option.isSome_none, Option.isSome_some,
            Option.getD_some, Json.getDouble, Bool.false_eq_true, if_false,
            if_true]
          exact ⟨by trivial, by trivial, by trivial, by trivial, havg _ rfl rfl⟩
    | some v1 =>
      rw [hA] at h1
      obtain ⟨q1, rfl⟩ : ∃ q, v1 = Json.num q := by
        cases v1 <;> simp_all [Json.isNum]
      cases hB : ts.find "currentlyAvailable" with
      | none =>
        cases hC : ts.find "restoreRate" with
        | none =>
          simp only [hA, hB, hC, Option.isSome_none, Option.isSome_some,
            Option.getD_some, Json.getDouble, Bool.false_eq_true, if_false,
            if_true]
          exact ⟨by trivial, by trivial, by trivial, by trivial, havg _ rfl rfl⟩
        | some v3 =>
          rw [hC] at h3
          obtain ⟨q3, rfl⟩ : ∃ q, v3 = Json.num q := by
            cases v3 <;> simp_all [Json.isNum]
          simp only [hA, hB, hC, Option.isSome_none, Option.isSome_some,
            Option.getD_some, Json.getDouble, Bool.false_eq_true, if_false,
            if_true]
          exact ⟨by trivial, by trivial, by trivial, by trivial, havg _ rfl rfl⟩
      | some v2 =>
        rw [hB] at h2
        obtain ⟨q2, rfl⟩ : ∃ q, v2 = Json.num q := by
          cases v2 <;> simp_all [Json.isNum]
        cases hC : ts.find "restoreRate" with
        | none =>
          simp only [hA, hB, hC, Option.isSome_none, Option.isSome_some,
            Option.getD_some, Json.getDouble, Bool.false_eq_true, if_false,
            if_true]
          exact ⟨by trivial, by trivial, by trivial, by trivial, havg _ rfl rfl⟩
        | some v3 =>
          rw [hC] at h3
          obtain ⟨q3, rfl⟩ : ∃ q, v3 = Json.num q := by
            cases v3 <;> simp_all [Json.isNum]
          simp only [hA, hB, hC, Option.isSome_none, Option.isSome_some,
            Option.getD_some, Json.getDouble, Bool.false_eq_true, if_false,
            if_true]
          exact ⟨by trivial, by trivial, by trivial, by trivial, havg _ rfl rfl⟩

/-- Witness for `observe_missing_requested_cost` at a concrete response:
the observation count goes from 0 to 1, the flag is set, and the stale
cost 0 enters the average. -/
theorem observe_missing_requested_cost_inst :
    (observeResponse thrInit rC10w).observationCount =
      thrInit.observationCount + 1 ∧
    (observeResponse thrInit rC10w).hasObserved = true ∧
    (observeResponse thrInit rC10w).totalCost =
      thrInit.totalCost + thrInit.lastRequestedCost ∧
    (observeResponse thrInit rC10w).lastRequestedCost =
      thrInit.lastRequestedCost ∧
    avgQueryCost (observeResponse thrInit rC10w) =
      (thrInit.totalCost + thrInit.lastRequestedCost) /
        (thrInit.observationCount + 1) :=
  observe_missing_requested_cost thrInit rC10w _ _ rfl rfl rfl (by decide)

/-!  ## Claim C6: backoff range  -/

/-- C6 counterexample: the jitter draw 100 lies in the support of
`uniform_int_distribution(0, 100)`, yet pushes the attempt-0 backoff to
300 ms, outside the claimed half-open interval `[200, 300)`. -/
theorem backoff_halfopen_counterexample :
    (0:ℤ) ≤ 100 ∧ (100:ℤ) ≤ 100 ∧
    computeBackoffMs 0 200 5000 100 = 300 ∧
    ¬ computeBackoffMs 0 200 5000 100 <
        min (200 * 2 ^ (0:ℕ)) 5000 + 100 := by
  refine ⟨by norm_num, by norm_num, by norm_num [computeBackoffMs], ?_⟩
  norm_num [computeBackoffMs]

/-- C6 amended: for every 0-based attempt and every jitter draw in the
distribution support `[0, 100]`, the backoff equals
`min(200 * 2 ^ attempt, 5000) + jitter` and lies in the CLOSED interval
`[min(200 * 2 ^ attempt, 5000), min(200 * 2 ^ attempt, 5000) + 100]`;
attempt 0 lies in `[200, 300]`, attempt 1 in `[400, 500]`, the lower
bound is non-decreasing in the attempt index, and from attempt 5 on the
lower bound clamps to 5000 (value in `[5000, 5100]`). -/
theorem backoff_range (attempt : ℕ) (j : ℤ) (h0 : 0 ≤ j) (h1 : j ≤ 100) :
    min (200 * 2 ^ attempt) 5000 ≤ computeBackoffMs attempt 200 5000 j ∧
    computeBackoffMs attempt 200 5000 j ≤
      min (200 * 2 ^ attempt) 5000 + 100 ∧
    (∀ b : ℕ, attempt ≤ b →
      min (200 * 2 ^ attempt) (5000:ℤ) ≤ min (200 * 2 ^ b) 5000) ∧
    (attempt = 0 → 200 ≤ computeBackoffMs attempt 200 5000 j ∧
      computeBackoffMs attempt 200 5000 j ≤ 300) ∧
    (attempt = 1 → 400 ≤ computeBackoffMs attempt 200 5000 j ∧
      computeBackoffMs attempt 200 5000 j ≤ 500) ∧
    (5 ≤ attempt → min (200 * 2 ^ attempt) (5000:ℤ) = 5000 ∧
      5000 ≤ computeBackoffMs attempt 200 5000 j ∧
      computeBackoffMs attempt 200 5000 j ≤ 5100) := by
  have hclamp : ∀ a : ℕ, 5 ≤ a → min (200 * 2 ^ a) (5000:ℤ) = 5000 := by
    intro a ha
    have h32 : (2:ℤ) ^ 5 ≤ 2 ^ a := pow_le_pow_right₀ one_le_two ha
    have : (5000:ℤ) ≤ 200 * 2 ^ a := by nlinarith
    exact min_eq_right this
  unfold computeBackoffMs
  refine ⟨by linarith, by linarith, ?_, ?_, ?_, ?_⟩
  · intro b hb
    have := pow_le_pow_right₀ (one_le_two (α := ℤ)) hb
    exact min_le_min (by linarith) le_rfl
  · rintro rfl
    norm_num
    constructor <;> linarith
  · rintro rfl
    norm_num
    constructor <;> linarith
  · intro h5
    rw [hclamp attempt h5]
    exact ⟨rfl, by linarith, by linarith⟩

/-- Witness for `backoff_range` at attempt 1, jitter 17: the backoff is
417 ms, inside `[400, 500]`. -/
theorem backoff_range_inst :
    computeBackoffMs 1 200 5000 17 = 417 ∧
    400 ≤ computeBackoffMs 1 200 5000 17 ∧
    computeBackoffMs 1 200 5000 17 ≤ 500 :=
  ⟨by norm_num [computeBackoffMs],
   (backoff_range 1 17 (by norm_num) (by norm_num)).2.2.2.2.1 rfl⟩

/-!  ## Claim C5: non-retryable responses pass through immediately  -/

/-- C5: a response whose HTTP status is neither 429 nor ≥ 500 is returned
by `executeWithRetry` immediately: no backoff sleep is performed, the
retry counter is not incremented, and exactly one client call is
consumed — at the first attempt and at any later attempt position of the
loop alike. -/
theorem retry_nonretryable_immediate (exec : ℕ → ExecResult) (jit : ℕ → ℤ)
    (callIdx status : ℕ) (body : Json)
    (hresp : exec callIdx = .resp status body)
    (hnr : isRetryableStatus status = false) :
    executeWithRetry exec jit callIdx = ⟨.ok body, 0, [], callIdx + 1⟩ ∧
    ∀ fuel attempt retries sleeps,
      executeWithRetryGo exec jit (fuel + 1) callIdx attempt retries
        sleeps = ⟨.ok body, retries, sleeps, callIdx + 1⟩ := by
  have hgo : ∀ fuel attempt retries sleeps,
      executeWithRetryGo exec jit (fuel + 1) callIdx attempt retries
        sleeps = ⟨.ok body, retries, sleeps, callIdx + 1⟩ := by
    intro fuel attempt retries sleeps
    unfold executeWithRetryGo
    rw [hresp]
    simp [hnr]
  exact ⟨hgo 5 0 0 [], hgo⟩

/-- Witness for `retry_nonretryable_immediate`: a 404 response is
returned from the first attempt with zero retries and zero sleeps. -/
theorem retry_nonretryable_immediate_inst :
    executeWithRetry execC5 (fun _ => 0) 0 =
      ⟨.ok (Json.obj []), 0, [], 1⟩ :=
  (retry_nonretryable_immediate execC5 (fun _ => 0) 0 404 (Json.obj [])
    rfl (by decide)).1

theorem executeWithRetryGo_exhaust (exec : ℕ → ExecResult) (jit : ℕ → ℤ) :
    ∀ (fuel callIdx attempt retries : ℕ) (sleeps : List ℤ),
      fuel + attempt = kMaxAttempts → 0 < fuel →
      (∀ i, i < fuel → retryableCond (exec (callIdx + i))) →
      (executeWithRetryGo exec jit fuel callIdx attempt retries
          sleeps).result =
        .error (lastErrMsg (exec (callIdx + fuel - 1))) ∧
      (executeWithRetryGo exec jit fuel callIdx attempt retries
          sleeps).retries = retries + fuel ∧
      (executeWithRetryGo exec jit fuel callIdx attempt retries
          sleeps).nextCall = callIdx + fuel := by
  intro fuel
  induction fuel with
  | zero => intro callIdx attempt retries sleeps hsum hpos
            exact absurd hpos (by omega)
  | succ f ih =>
    intro callIdx attempt retries sleeps hsum hpos hall
    have h0 : retryableCond (exec callIdx) := by
      have := hall 0 (by omega)
      simpa using this
    cases f with
    | zero =>
      have ha : attempt = kMaxAttempts - 1 := by
        unfold kMaxAttempts at hsum ⊢; omega
      unfold executeWithRetryGo
      cases hx : exec callIdx with
      | resp status body =>
        rw [hx] at h0
        unfold retryableCond at h0
        simp only [h0, if_true, if_pos ha]
        refine ⟨?_, by trivial, by trivial⟩
        have : callIdx + 1 - 1 = callIdx := by omega
        rw [this, hx]
        rfl
      | netErr msg =>
        rw [hx] at h0
        unfold retryableCond at h0
        simp only [h0, Bool.false_eq_true, if_false, if_pos ha]
        refine ⟨?_, by trivial, by trivial⟩
        have : callIdx + 1 - 1 = callIdx := by omega
        rw [this, hx]
        rfl
    | succ g =>
      have hne : ¬ attempt = kMaxAttempts - 1 := by
        unfold kMaxAttempts at hsum ⊢; omega
      have hall2 : ∀ i, i < g + 1 →
          retryableCond (exec (callIdx + 1 + i)) := by
        intro i hi
        have := hall (i + 1) (by omega)
        have harith : callIdx + (i + 1) = callIdx + 1 + i := by omega
        rwa [harith] at this
      have hrec := ih (callIdx + 1) (attempt + 1) (retries + 1)
      unfold executeWithRetryGo
      cases hx : exec callIdx with
      | resp status body =>
        rw [hx] at h0
        unfold retryableCond at h0
        simp only [h0, if_true, if_neg hne]
        have harith1 : callIdx + 1 + (g + 1) - 1 =
            callIdx + (g + 1 + 1) - 1 := by omega
        have harith2 : retries + 1 + (g + 1) = retries + (g + 1 + 1) := by
          omega
        have harith3 : callIdx + 1 + (g + 1) = callIdx + (g + 1 + 1) := by
          omega
        have h := hrec (sleeps ++ [computeBackoffMs attempt 200 5000
          (jit attempt)]) (by unfold kMaxAttempts at hsum ⊢; omega)
          (by omega) hall2
        rw [harith1, harith2, harith3] at h
        exact h
      | netErr msg =>
        rw [hx] at h0
        unfold retryableCond at h0
        simp only [h0, Bool.false_eq_true, if_false, if_neg hne]
        have harith1 : callIdx + 1 + (g + 1) - 1 =
            callIdx + (g + 1 + 1) - 1 := by omega
        have harith2 : retries + 1 + (g + 1) = retries + (g + 1 + 1) := by
          omega
        have harith3 : callIdx + 1 + (g + 1) = callIdx + (g + 1 + 1) := by
          omega
        have h := hrec (sleeps ++ [computeBackoffMs attempt 200 5000
          (jit attempt)]) (by unfold kMaxAttempts at hsum ⊢; omega)
          (by omega) hall2
        rw [harith1, harith2, harith3] at h
        exact h

/-- Driver side: when `executeWithRetry` ends in an error, the loop body
breaks with the accumulator untouched. -/
theorem fetchStep_retry_error (client : ℕ → Json → ExecResult)
    (jit : ℕ → ℤ) (totalLimit pageSize : ℤ) (acc : List Product)
    (cursor : Option String) (stats : Stats) (thr : ThrottleState)
    (callIdx : ℕ) (m : String)
    (h : (executeWithRetry (fun i => client i (mkVariables
        (min pageSize (totalLimit - (acc.length : ℤ))) cursor)) jit
        callIdx).result = .error m) :
    (fetchStep client jit totalLimit pageSize acc cursor stats thr
        callIdx).exit = .stop ∧
    (fetchStep client jit totalLimit pageSize acc cursor stats thr
        callIdx).acc = acc := by
  constructor <;> (simp only [fetchStep]; rw [h])

/-- The loop returns `.ok` with the step accumulator whenever the step
breaks. -/
theorem fetchGo_step_stop (client : ℕ → Json → ExecResult) (jit : ℕ → ℤ)
    (totalLimit pageSize : ℤ) (fuel : ℕ) (acc : List Product)
    (cursor : Option String) (stats : Stats) (thr : ThrottleState)
    (callIdx : ℕ) (log : List IterLog)
    (hlt : (acc.length : ℤ) < totalLimit)
    (hexit : (fetchStep client jit totalLimit pageSize acc cursor stats
        thr callIdx).exit = .stop) :
    fetchGo client jit totalLimit pageSize (fuel + 1) acc cursor stats thr
        callIdx log =
      .ok (finishRun
        (fetchStep client jit totalLimit pageSize acc cursor stats thr
          callIdx).acc
        (fetchStep client jit totalLimit pageSize acc cursor stats thr
          callIdx).stats
        (fetchStep client jit totalLimit pageSize acc cursor stats thr
          callIdx).thr
        (fetchStep client jit totalLimit pageSize acc cursor stats thr
          callIdx).callIdx
        (log ++ [(fetchStep client jit totalLimit pageSize acc cursor
          stats thr callIdx).entry])) := by
  unfold fetchGo
  rw [if_pos hlt]
  simp only [hexit]

/-- C4: when all six attempts end in a retryable condition (HTTP 429 /
≥ 500 or a transport error), `executeWithRetry` raises the terminal
max-retries-exceeded error carrying the last observed status code or
error message, after exactly `kMaxAttempts` retry-counter increments and
`kMaxAttempts` client calls (so the terminal error is not itself
retried); and whenever `executeWithRetry` ends in an error, the driver
breaks the loop and returns the records accumulated so far instead of
crashing. -/
theorem retry_exhaustion_partial_results (exec : ℕ → ExecResult)
    (jit : ℕ → ℤ) (c : ℕ)
    (hall : ∀ i, i < kMaxAttempts → retryableCond (exec (c + i))) :
    ((executeWithRetry exec jit c).result =
        .error (lastErrMsg (exec (c + 5))) ∧
      (executeWithRetry exec jit c).retries = kMaxAttempts ∧
      (executeWithRetry exec jit c).nextCall = c + kMaxAttempts) ∧
    (∀ (client : ℕ → Json → ExecResult) (totalLimit pageSize : ℤ)
       (fuel : ℕ) (acc : List Product) (cursor : Option String)
       (stats : Stats) (thr : ThrottleState) (callIdx : ℕ)
       (log : List IterLog) (m : String),
      (executeWithRetry (fun i => client i (mkVariables
          (min pageSize (totalLimit - (acc.length : ℤ))) cursor)) jit
          callIdx).result = .error m →
      (acc.length : ℤ) < totalLimit →
      ∃ st2 th2 ci2 lg2,
        fetchGo client jit totalLimit pageSize (fuel + 1) acc cursor stats
          thr callIdx log = .ok (acc, st2, th2, ci2, lg2)) := by
  constructor
  · have h := executeWithRetryGo_exhaust exec jit kMaxAttempts c 0 0 []
      (by omega) (by unfold kMaxAttempts; omega) hall
    have h5 : c + kMaxAttempts - 1 = c + 5 := by unfold kMaxAttempts; omega
    rw [h5] at h
    exact h
  · intro client totalLimit pageSize fuel acc cursor stats thr callIdx log
      m herr hlt
    obtain ⟨hexit, hacc⟩ := fetchStep_retry_error client jit totalLimit
      pageSize acc cursor stats thr callIdx m herr
    have heq := fetchGo_step_stop client jit totalLimit pageSize fuel acc
      cursor stats thr callIdx log hlt hexit
    rw [hacc] at heq
    unfold finishRun at heq
    exact ⟨_, _, _, _, heq⟩

/-- Witness for `retry_exhaustion_partial_results`: six 503 responses
exhaust the attempts, the terminal error carries status 503, and the
driver returns the (empty) accumulated list. -/
theorem retry_exhaustion_partial_results_inst :
    (executeWithRetry execC4 (fun _ => 0) 0).result =
      .error "Max retries exceeded.  Last HTTP status: 503" ∧
    (executeWithRetry execC4 (fun _ => 0) 0).retries = 6 ∧
    (∃ st2 th2 ci2 lg2,
      fetchGo (fun _ _ => ExecResult.resp 503 Json.null) (fun _ => 0)
        10 5 1 [] none {} thrInit 0 [] =
        .ok ([], st2, th2, ci2, lg2)) := by
  have h := retry_exhaustion_partial_results execC4 (fun _ => 0) 0
    (by intro i hi; unfold execC4 retryableCond; decide)
  refine ⟨h.1.1, h.1.2.1, ?_⟩
  exact h.2 (fun _ _ => ExecResult.resp 503 Json.null) 10 5 0 [] none {}
    thrInit 0 [] "Max retries exceeded.  Last HTTP status: 503"
    rfl (by decide)

/-!  ## Claim C3: an empty page stops pagination  -/

/-- C3: when the parsed page holds zero records, the loop body breaks
immediately — even when the page reports `hasNextPage = true` — keeping
the previously accumulated records, and the loop returns them. -/
theorem empty_page_stops (client : ℕ → Json → ExecResult) (jit : ℕ → ℤ)
    (totalLimit pageSize : ℤ) (acc : List Product) (cursor : Option String)
    (stats : Stats) (thr : ThrottleState) (callIdx : ℕ)
    (response : Json) (errs : List String) (page : PageResult)
    (hok : (executeWithRetry (fun i => client i (mkVariables
        (min pageSize (totalLimit - (acc.length : ℤ))) cursor)) jit
        callIdx).result = .ok response)
    (herrs : extractGraphqlErrors response = .ok errs)
    (hnostop : ¬(errs ≠ [] ∧ (response.containsKey "data" = false ∨
        (response.get "data").isNull = true)))
    (hparse : parseProductsPage response = .ok page)
    (hempty : page.products = []) :
    (fetchStep client jit totalLimit pageSize acc cursor stats thr
        callIdx).exit = .stop ∧
    (fetchStep client jit totalLimit pageSize acc cursor stats thr
        callIdx).acc = acc ∧
    (∀ fuel log, (acc.length : ℤ) < totalLimit →
      ∃ st2 th2 ci2 lg2,
        fetchGo client jit totalLimit pageSize (fuel + 1) acc cursor stats
          thr callIdx log = .ok (acc, st2, th2, ci2, lg2)) := by
  have hexit : (fetchStep client jit totalLimit pageSize acc cursor stats
      thr callIdx).exit = .stop := by
    simp only [fetchStep, hok, herrs, hparse]
    rw [if_neg hnostop]
    simp [hempty]
  have hacc : (fetchStep client jit totalLimit pageSize acc cursor stats
      thr callIdx).acc = acc := by
    simp only [fetchStep, hok, herrs, hparse]
    rw [if_neg hnostop]
    simp [hempty]
  refine ⟨hexit, hacc, ?_⟩
  intro fuel log hlt
  have heq := fetchGo_step_stop client jit totalLimit pageSize fuel acc
    cursor stats thr callIdx log hlt hexit
  rw [hacc] at heq
  unfold finishRun at heq
  exact ⟨_, _, _, _, heq⟩

/-- Witness for `empty_page_stops`: an empty page with
`hasNextPage = true` stops the loop and the accumulated record is
returned. -/
theorem empty_page_stops_inst :
    (fetchStep clientC3 (fun _ => 0) 10 5 [prodW] none {} thrInit
      0).exit = .stop ∧
    (fetchStep clientC3 (fun _ => 0) 10 5 [prodW] none {} thrInit
      0).acc = [prodW] ∧
    (∃ st2 th2 ci2 lg2,
      fetchGo clientC3 (fun _ => 0) 10 5 1 [prodW] none {} thrInit 0 [] =
        .ok ([prodW], st2, th2, ci2, lg2)) := by
  have h := empty_page_stops clientC3 (fun _ => 0) 10 5 [prodW] none {}
    thrInit 0 bodyC3 [] ⟨[], none, true⟩ rfl rfl (by simp) rfl rfl
  exact ⟨h.1, h.2.1, h.2.2 0 [] (by decide)⟩

/-- C9 counterexample: a page with two records whose continuation cursor
is `"c1"`, the cursor attached to the first record — the mapper tracks
the cursor of the last edge CARRYING one, so with a cursor-less final
edge the invariant "never the cursor of the first or any intermediate
record" fails. -/
theorem lastCursor_counterexample :
    parseProductsPage bodyC9 = .ok
      { products := [⟨"a", "A", "t"⟩, ⟨"b", "B", "t"⟩],
        lastCursor := some "c1", hasNextPage := true } := by
  rfl

theorem parseEdges_wf :
    ∀ (es : List Json) (ps : List Product) (c : Option String),
      (∀ x ∈ es, (∃ s, x.find "cursor" = some (Json.str s)) ∧
        x.containsKey "node" = true) →
      ∀ res, parseEdges es ps c = .ok res →
        res.1.length = ps.length + es.length ∧
        res.2 = (match es.getLast? with
                 | none => c
                 | some e => edgeCursor e) := by
  intro es
  induction es with
  | nil =>
    intro ps c _ res h
    simp only [parseEdges] at h
    injection h with h
    subst h
    simp
  | cons e es ih =>
    intro ps c hwf res h
    obtain ⟨⟨s, hcur⟩, hnode⟩ := hwf e (by simp)
    have hwf2 : ∀ x ∈ es, (∃ s, x.find "cursor" = some (Json.str s)) ∧
        x.containsKey "node" = true := fun x hx => hwf x (by simp [hx])
    simp only [parseEdges, hnode, if_true] at h
    cases hpn : parseProductNode (e.get "node") with
    | error m => rw [hpn] at h; simp at h
    | ok p =>
      rw [hpn] at h
      simp only [Json.containsKey, hcur, Option.isSome_some, if_true,
        Json.get, Option.getD_some, Json.getString] at h
      have hrec := ih (ps ++ [p]) (some s) hwf2 res h
      refine ⟨?_, ?_⟩
      · rw [hrec.1]
        simp
        omega
      · rw [hrec.2]
        cases es with
        | nil => simp [edgeCursor, hcur]
        | cons a l =>
          rw [List.getLast?_cons_cons]
          cases hgl : (a :: l).getLast? with
          | none => simp at hgl
          | some x => rfl

/-- C9 amended: the mapper returns as continuation cursor the cursor of
the last edge that CARRIES one; in particular, for a non-empty page whose
edges each carry both a node and a cursor (the well-formed case), the
continuation cursor is the cursor of the last record — never the first or
an intermediate one — and the driver adopts exactly `page.lastCursor` as
the cursor of the next request. -/
theorem lastCursor_last_edge (body : Json) (es : List Json)
    (page : PageResult) (elast : Json)
    (hwf : ∀ x ∈ es, (∃ s, x.find "cursor" = some (Json.str s)) ∧
      x.containsKey "node" = true)
    (hedges : ((body.get "data").get "products").find "edges" =
      some (Json.arr es))
    (hparse : parseProductsPage body = .ok page)
    (hlast : es.getLast? = some elast) :
    page.lastCursor = edgeCursor elast ∧
    page.products.length = es.length ∧
    (∀ (client : ℕ → Json → ExecResult) (jit : ℕ → ℤ)
       (totalLimit pageSize : ℤ) (acc : List Product)
       (cursor : Option String) (stats : Stats) (thr : ThrottleState)
       (callIdx : ℕ) (errs : List String),
      (executeWithRetry (fun i => client i (mkVariables
          (min pageSize (totalLimit - (acc.length : ℤ))) cursor)) jit
          callIdx).result = .ok body →
      extractGraphqlErrors body = .ok errs →
      ¬(errs ≠ [] ∧ (body.containsKey "data" = false ∨
          (body.get "data").isNull = true)) →
      page.products ≠ [] → page.hasNextPage = true →
      (fetchStep client jit totalLimit pageSize acc cursor stats thr
          callIdx).exit = .next page.lastCursor) := by
  obtain ⟨dval, hfd⟩ : ∃ v, body.find "data" = some v := by
    cases hfd : body.find "data" with
    | some v => exact ⟨v, rfl⟩
    | none =>
      exfalso
      have h1 : body.get "data" = Json.null := by simp [Json.get, hfd]
      rw [h1] at hedges
      simp [Json.get, Json.find] at hedges
  have hgd : body.get "data" = dval := by simp [Json.get, hfd]
  have hdnn : dval.isNull = false := by
    by_contra hc
    have hnull : dval = Json.null := by
      cases dval <;> simp_all [Json.isNull]
    rw [hgd, hnull] at hedges
    simp [Json.get, Json.find] at hedges
  obtain ⟨pval, hfp⟩ : ∃ v, dval.find "products" = some v := by
    cases hfp : dval.find "products" with
    | some v => exact ⟨v, rfl⟩
    | none =>
      exfalso
      rw [hgd] at hedges
      have h2 : dval.get "products" = Json.null := by simp [Json.get, hfp]
      rw [h2] at hedges
      simp [Json.find] at hedges
  have hgp : dval.get "products" = pval := by simp [Json.get, hfp]
  rw [hgd, hgp] at hedges
  have hp2 := hparse
  simp only [parseProductsPage, Json.containsKey, Json.get, hfd,
    Option.getD_some, Option.isSome_some, hdnn, hfp, hedges, Json.isArr,
    Json.arrElems, Bool.true_eq_false, Bool.false_eq_true, if_false,
    if_true, Bool.true_and, Bool.and_self, eq_self_iff_true] at hp2
  cases hpe : parseEdges es [] none with
  | error m =>
    rw [hpe] at hp2
    simp at hp2
  | ok pc =>
    obtain ⟨ps, c⟩ := pc
    rw [hpe] at hp2
    have hwfres := parseEdges_wf es [] none hwf (ps, c) hpe
    simp only [List.length_nil, Nat.zero_add, hlast] at hwfres
    have hcomp : page.products = ps ∧ page.lastCursor = c := by
      split at hp2
      · exact absurd hp2 (by simp)
      · rename_i ps2 c2 heq
        obtain ⟨hps, hc⟩ : ps = ps2 ∧ c = c2 := by simpa using heq
        subst hps
        subst hc
        split at hp2
        · exact absurd hp2 (by simp)
        · have hpg := hp2
          simp only [Except.ok.injEq] at hpg
          rw [← hpg]
          exact ⟨rfl, rfl⟩
    refine ⟨?_, ?_, ?_⟩
    · rw [hcomp.2]
      exact hwfres.2
    · rw [hcomp.1]
      exact hwfres.1
    · intro client jit totalLimit pageSize acc cursor stats thr callIdx
        errs hok herrs hns hne hnext
      simp only [fetchStep, hok, herrs, hparse]
      rw [if_neg hns]
      simp [List.isEmpty_eq_false.mpr hne, hnext]

/-- Witness for `lastCursor_last_edge`: on a well-formed two-record page
the continuation cursor is the last record's cursor `"c2"`, and the
driver adopts it. -/
theorem lastCursor_last_edge_inst :
    pageC9w.lastCursor = edgeCursor edgeC9b ∧
    pageC9w.products.length = 2 ∧
    (fetchStep clientC9w (fun _ => 0) 10 5 [] none {} thrInit 0).exit =
      .next pageC9w.lastCursor := by
  have h := lastCursor_last_edge bodyC9w [edgeC9a, edgeC9b] pageC9w
    edgeC9b
    (by
      intro x hx
      simp only [List.mem_cons, List.not_mem_nil, or_false] at hx
      rcases hx with rfl | rfl
      · exact ⟨⟨"c1", rfl⟩, rfl⟩
      · exact ⟨⟨"c2", rfl⟩, rfl⟩)
    rfl rfl rfl
  refine ⟨h.1, h.2.1, ?_⟩
  exact h.2.2 clientC9w (fun _ => 0) 10 5 [] none {} thrInit 0 []
    rfl rfl (by simp) (by decide) rfl

/-!  ## Claim C2: pagination invariants  -/

theorem executeWithRetryGo_ok_origin (exec : ℕ → ExecResult)
    (jit : ℕ → ℤ) :
    ∀ (fuel callIdx attempt retries : ℕ) (sleeps : List ℤ) (body : Json),
      (executeWithRetryGo exec jit fuel callIdx attempt retries
          sleeps).result = .ok body →
      ∃ i status, exec i = .resp status body ∧
        isRetryableStatus status = false := by
  intro fuel
  induction fuel with
  | zero =>
    intro callIdx attempt retries sleeps body h
    simp [executeWithRetryGo] at h
  | succ f ih =>
    intro callIdx attempt retries sleeps body h
    unfold executeWithRetryGo at h
    cases hx : exec callIdx with
    | resp status b =>
      rw [hx] at h
      by_cases hr : isRetryableStatus status = true
      · simp only [hr, if_true] at h
        by_cases ha : attempt = kMaxAttempts - 1
        · rw [if_pos ha] at h
          simp at h
        · rw [if_neg ha] at h
          exact ih _ _ _ _ _ h
      · have hr2 : isRetryableStatus status = false := by
          cases hb : isRetryableStatus status
          · rfl
          · exact absurd hb hr
        simp only [hr2, Bool.false_eq_true, if_false] at h
        have hb2 : b = body := by simpa using h
        exact ⟨callIdx, status, by rw [hx, hb2], hr2⟩
    | netErr msg =>
      rw [hx] at h
      by_cases hs : containsSubstr msg "Max retries exceeded" = true
      · simp [hs] at h
      · simp only [Bool.not_eq_true] at hs
        simp only [hs, Bool.false_eq_true, if_false] at h
        by_cases ha : attempt = kMaxAttempts - 1
        · rw [if_pos ha] at h
          simp at h
        · rw [if_neg ha] at h
          exact ih _ _ _ _ _ h

theorem executeWithRetry_ok_origin (exec : ℕ → ExecResult) (jit : ℕ → ℤ)
    (callIdx : ℕ) (body : Json)
    (h : (executeWithRetry exec jit callIdx).result = .ok body) :
    ∃ i status, exec i = .resp status body ∧
      isRetryableStatus status = false :=
  executeWithRetryGo_ok_origin exec jit kMaxAttempts callIdx 0 0 [] body h

theorem loggedProducts_cons (e : IterLog) (l : List IterLog) :
    loggedProducts (e :: l) =
      (match e.page with
        | some p => p.products
        | none => []) ++ loggedProducts l := by
  simp [loggedProducts]

/-- What one loop iteration guarantees: the logged request size is
exactly `min(pageSize, totalLimit - accumulated)`, and the accumulator
grows exactly by the parsed page's records (which come from a successful
client response). -/
theorem fetchStep_spec (client : ℕ → Json → ExecResult) (jit : ℕ → ℤ)
    (totalLimit pageSize : ℤ) (acc : List Product) (cursor : Option String)
    (stats : Stats) (thr : ThrottleState) (callIdx : ℕ) :
    (fetchStep client jit totalLimit pageSize acc cursor stats thr
        callIdx).entry.accBefore = acc.length ∧
    (fetchStep client jit totalLimit pageSize acc cursor stats thr
        callIdx).entry.fetchCount =
      min pageSize (totalLimit - (acc.length : ℤ)) ∧
    ((fetchStep client jit totalLimit pageSize acc cursor stats thr
        callIdx).entry.page = none →
      (fetchStep client jit totalLimit pageSize acc cursor stats thr
        callIdx).acc = acc) ∧
    (∀ p, (fetchStep client jit totalLimit pageSize acc cursor stats thr
        callIdx).entry.page = some p →
      (fetchStep client jit totalLimit pageSize acc cursor stats thr
        callIdx).acc = acc ++ p.products ∧
      ∃ response,
        (executeWithRetry (fun i => client i (mkVariables
            (min pageSize (totalLimit - (acc.length : ℤ))) cursor)) jit
            callIdx).result = .ok response ∧
        parseProductsPage response = .ok p) := by
  cases hres : (executeWithRetry (fun i => client i (mkVariables
      (min pageSize (totalLimit - (acc.length : ℤ))) cursor)) jit
      callIdx).result with
  | error m =>
    simp only [fetchStep, hres]
    exact ⟨by trivial, by trivial, fun _ => by trivial,
      fun p hp => absurd hp (by simp)⟩
  | ok response =>
    cases herr : extractGraphqlErrors response with
    | error m =>
      simp only [fetchStep, hres, herr]
      exact ⟨by trivial, by trivial, fun _ => by trivial,
        fun p hp => absurd hp (by simp)⟩
    | ok errs =>
      by_cases hc : errs ≠ [] ∧ (response.containsKey "data" = false ∨
          (response.get "data").isNull = true)
      · simp only [fetchStep, hres, herr]
        rw [if_pos hc]
        exact ⟨by trivial, by trivial, fun _ => by trivial,
          fun p hp => absurd hp (by simp)⟩
      · cases hp : parseProductsPage response with
        | error m =>
          simp only [fetchStep, hres, herr, hp]
          rw [if_neg hc]
          exact ⟨by trivial, by trivial, fun _ => by trivial,
            fun p hpp => absurd hpp (by simp)⟩
        | ok page =>
          cases he : page.products.isEmpty with
          | true =>
            have hpe : page.products = [] := by
              simpa using he
            simp only [fetchStep, hres, herr, hp, he, if_true]
            rw [if_neg hc]
            refine ⟨by trivial, by trivial, fun hno => absurd hno (by simp),
              fun p hpp => ?_⟩
            have hppage : p = page := by simpa using hpp.symm
            subst hppage
            exact ⟨by simp [hpe], response, rfl, hp⟩
          | false =>
            cases hn : page.hasNextPage with
            | false =>
              simp only [fetchStep, hres, herr, hp, he, hn,
                Bool.false_eq_true, if_false, if_true]
              rw [if_neg hc]
              refine ⟨by trivial, by trivial,
                fun hno => absurd hno (by simp), fun p hpp => ?_⟩
              have hppage : p = page := by simpa using hpp.symm
              subst hppage
              exact ⟨rfl, response, rfl, hp⟩
            | true =>
              simp only [fetchStep, hres, herr, hp, he, hn,
                Bool.false_eq_true, Bool.true_eq_false, if_false]
              rw [if_neg hc]
              refine ⟨by trivial, by trivial,
                fun hno => absurd hno (by simp), fun p hpp => ?_⟩
              have hppage : p = page := by simpa using hpp.symm
              subst hppage
              exact ⟨rfl, response, rfl, hp⟩

/-- Invariant of the pagination loop, by induction on the fuel. -/
theorem fetchGo_spec (client : ℕ → Json → ExecResult) (jit : ℕ → ℤ)
    (totalLimit pageSize : ℤ) (Hb : BoundedResponses client) :
    ∀ (fuel : ℕ) (acc : List Product) (cursor : Option String)
      (stats : Stats) (thr : ThrottleState) (callIdx : ℕ)
      (log0 : List IterLog) (ps : List Product) (st2 : Stats)
      (th2 : ThrottleState) (ci2 : ℕ) (log2 : List IterLog),
      fetchGo client jit totalLimit pageSize fuel acc cursor stats thr
          callIdx log0 = .ok (ps, st2, th2, ci2, log2) →
      ∃ newE, log2 = log0 ++ newE ∧
        ps = acc ++ loggedProducts newE ∧
        (∀ e ∈ newE,
          e.fetchCount = min pageSize (totalLimit - (e.accBefore : ℤ))) ∧
        ((acc.length : ℤ) ≤ totalLimit → (ps.length : ℤ) ≤ totalLimit) := by
  have hgrow : ∀ (acc : List Product) (cursor : Option String)
      (stats : Stats) (thr : ThrottleState) (callIdx : ℕ),
      (acc.length : ℤ) < totalLimit →
      ((fetchStep client jit totalLimit pageSize acc cursor stats thr
          callIdx).acc.length : ℤ) ≤ totalLimit ∧
      ∃ suffix, (fetchStep client jit totalLimit pageSize acc cursor stats
          thr callIdx).acc = acc ++ suffix := by
    intro acc cursor stats thr callIdx hlt
    obtain ⟨_, _, hnone, hsome⟩ := fetchStep_spec client jit totalLimit
      pageSize acc cursor stats thr callIdx
    cases hpage : (fetchStep client jit totalLimit pageSize acc cursor
        stats thr callIdx).entry.page with
    | none =>
      rw [hnone hpage]
      exact ⟨by linarith, [], by simp⟩
    | some p =>
      obtain ⟨hacc, response, hres, hparse⟩ := hsome p hpage
      obtain ⟨i, status, hcl, _⟩ := executeWithRetry_ok_origin _ jit
        callIdx response hres
      have hbound := Hb i (min pageSize (totalLimit - (acc.length : ℤ)))
        cursor status response p hcl hparse
      have hle : (p.products.length : ℤ) ≤ totalLimit - (acc.length : ℤ) :=
        le_trans hbound (min_le_right _ _)
      rw [hacc]
      refine ⟨?_, p.products, rfl⟩
      rw [List.length_append]
      push_cast
      linarith
  intro fuel
  induction fuel with
  | zero =>
    intro acc cursor stats thr callIdx log0 ps st2 th2 ci2 log2 h
    unfold fetchGo finishRun at h
    simp only [Except.ok.injEq, Prod.mk.injEq] at h
    obtain ⟨hps, _, _, _, hlog⟩ := h
    exact ⟨[], by simp [hlog], by simp [hps, loggedProducts],
      by simp, fun hle => by rw [← hps]; exact hle⟩
  | succ f ih =>
    intro acc cursor stats thr callIdx log0 ps st2 th2 ci2 log2 h
    unfold fetchGo at h
    by_cases hlt : (acc.length : ℤ) < totalLimit
    · rw [if_pos hlt] at h
      obtain ⟨haccB, hfc, hnone, hsome⟩ := fetchStep_spec client jit
        totalLimit pageSize acc cursor stats thr callIdx
      cases hexit : (fetchStep client jit totalLimit pageSize acc cursor
          stats thr callIdx).exit with
      | crash m =>
        simp only [hexit] at h
        simp at h
      | stop =>
        simp only [hexit] at h
        unfold finishRun at h
        simp only [Except.ok.injEq, Prod.mk.injEq] at h
        obtain ⟨hps, _, _, _, hlog⟩ := h
        refine ⟨[(fetchStep client jit totalLimit pageSize acc cursor
          stats thr callIdx).entry], by rw [← hlog], ?_, ?_, ?_⟩
        · rw [← hps, loggedProducts_cons]
          cases hpage : (fetchStep client jit totalLimit pageSize acc
              cursor stats thr callIdx).entry.page with
          | none => simp [hnone hpage, loggedProducts]
          | some p => simp [(hsome p hpage).1, loggedProducts]
        · intro e he
          have heq : e = (fetchStep client jit totalLimit pageSize acc
              cursor stats thr callIdx).entry := by simpa using he
          subst heq
          rw [hfc, haccB]
        · intro _
          rw [← hps]
          exact (hgrow acc cursor stats thr callIdx hlt).1
      | next c2 =>
        simp only [hexit] at h
        obtain ⟨newE, hlog, hps, hfcAll, hbd⟩ := ih _ _ _ _ _ _ _ _ _ _ _ h
        obtain ⟨hstep_le, suffix, hsuffix⟩ := hgrow acc cursor stats thr
          callIdx hlt
        refine ⟨(fetchStep client jit totalLimit pageSize acc cursor stats
          thr callIdx).entry :: newE, by rw [hlog]; simp, ?_, ?_, ?_⟩
        · rw [hps, loggedProducts_cons]
          cases hpage : (fetchStep client jit totalLimit pageSize acc
              cursor stats thr callIdx).entry.page with
          | none => rw [hnone hpage]; simp
          | some p => rw [(hsome p hpage).1]; simp
        · intro e he
          rcases List.mem_cons.mp he with heq | hmem
          · subst heq
            rw [hfc, haccB]
          · exact hfcAll e hmem
        · intro _
          exact hbd hstep_le
    · rw [if_neg hlt] at h
      unfold finishRun at h
      simp only [Except.ok.injEq, Prod.mk.injEq] at h
      obtain ⟨hps, _, _, _, hlog⟩ := h
      exact ⟨[], by simp [hlog], by simp [hps, loggedProducts],
        by simp, fun hle => by rw [← hps]; exact hle⟩

/-- C2: for every run of `fetchAllProducts` with positive `totalLimit`
and `pageSize` against a client whose responses carry at most the
requested number of records, every request asks for exactly
`min(pageSize, totalLimit - accumulated)` records, the accumulated result
is the concatenation of the parsed pages in fetch order (server edge
order preserved), and the final accumulated count never exceeds
`totalLimit`. -/
theorem fetchAll_pagination_invariants (client : ℕ → Json → ExecResult)
    (jit : ℕ → ℤ) (thr0 : ThrottleState) (totalLimit pageSize : ℤ)
    (hT : 0 < totalLimit) (_hP : 0 < pageSize)
    (Hb : BoundedResponses client) :
    ∀ (ps : List Product) (st2 : Stats) (th2 : ThrottleState) (ci2 : ℕ)
      (log2 : List IterLog),
      fetchAllProducts client jit thr0 totalLimit pageSize =
        .ok (ps, st2, th2, ci2, log2) →
      (ps.length : ℤ) ≤ totalLimit ∧
      ps = loggedProducts log2 ∧
      ∀ e ∈ log2, e.fetchCount =
        min pageSize (totalLimit - (e.accBefore : ℤ)) := by
  intro ps st2 th2 ci2 log2 h
  unfold fetchAllProducts at h
  obtain ⟨newE, hlog, hps, hfc, hbd⟩ := fetchGo_spec client jit totalLimit
    pageSize Hb totalLimit.toNat [] none {} thr0 0 [] ps st2 th2 ci2
    log2 h
  simp only [List.nil_append] at hlog hps
  subst hlog
  exact ⟨hbd (by simpa using hT.le), hps, hfc⟩

theorem lenOk_spec {b : Json} {fc : ℤ} {page : PageResult}
    (h : lenOk b fc = true) (hp : parseProductsPage b = .ok page) :
    (page.products.length : ℤ) ≤ fc := by
  unfold lenOk at h
  rw [hp] at h
  exact of_decide_eq_true h

theorem mkVariables_find_first (fc : ℤ) (cur : Option String) :
    (mkVariables fc cur).find "first" = some (Json.num (fc : ℚ)) := by
  cases cur <;> rfl

theorem clientC2_bounded : BoundedResponses clientC2 := by
  intro i fc cur status body page hcl hp
  have hobj : parseProductsPage (Json.obj []) =
      .error "Response missing data field" := rfl
  simp only [clientC2, mkVariables_find_first] at hcl
  by_cases h10 : (fc : ℚ) = 10
  · rw [if_pos h10] at hcl
    have hfc : fc = 10 := by exact_mod_cast h10
    subst hfc
    cases cur with
    | none =>
      rw [show (mkVariables 10 none).find "after" = none from rfl] at hcl
      injection hcl with hst hbd
      rw [← hbd] at hp
      exact lenOk_spec (by decide) hp
    | some c =>
      rw [show (mkVariables 10 (some c)).find "after" =
        some (Json.str c) from rfl] at hcl
      by_cases hc10 : c = "c10"
      · subst hc10
        simp only [if_pos rfl] at hcl
        injection hcl with hst hbd
        rw [← hbd] at hp
        exact lenOk_spec (by decide) hp
      · simp only [if_neg hc10] at hcl
        injection hcl with hst hbd
        rw [← hbd, hobj] at hp
        cases hp
  · by_cases h5 : (fc : ℚ) = 5
    · rw [if_neg h10, if_pos h5] at hcl
      have hfc : fc = 5 := by exact_mod_cast h5
      subst hfc
      injection hcl with hst hbd
      rw [← hbd] at hp
      exact lenOk_spec (by decide) hp
    · rw [if_neg h10, if_neg h5] at hcl
      injection hcl with hst hbd
      rw [← hbd, hobj] at hp
      cases hp

/-- Witness for `fetchAll_pagination_invariants`: fetching
`totalLimit = 25` with `pageSize = 10` from the mock server yields
exactly 25 records over 3 requests of sizes 10, 10 and 5, in server
order, never exceeding the limit. -/
theorem fetchAll_pagination_invariants_inst :
    fetchAllProducts clientC2 (fun _ => 0) thrInit 25 10 =
      .ok (prodsC2, statsC2, thrInit, 3, logC2) ∧
    (prodsC2.length : ℤ) ≤ 25 ∧
    prodsC2 = loggedProducts logC2 ∧
    (∀ e ∈ logC2, e.fetchCount = min 10 (25 - (e.accBefore : ℤ))) ∧
    prodsC2.length = 25 ∧ statsC2.totalRequests = 3 := by
  have hR : fetchAllProducts clientC2 (fun _ => 0) thrInit 25 10 =
      .ok (prodsC2, statsC2, thrInit, 3, logC2) := by rfl
  have h := fetchAll_pagination_invariants clientC2 (fun _ => 0) thrInit
    25 10 (by norm_num) (by norm_num) clientC2_bounded prodsC2 statsC2
    thrInit 3 logC2 hR
  exact ⟨hR, h.1, h.2.1, h.2.2, rfl, rfl⟩

end GraphqlSync
